import Mathlib

/-!
# juju add-machine: the command's `Init` and `Run` (cmd/juju/addmachine.go)

A shallow embedding of `AddMachineCommand.Init` and `AddMachineCommand.Run`.
Go values are Lean values, a nil pointer or nil error is `none`, and a Go
function returning `(v, err)` returns a pair.  Everything `Run` does to the
outside (calls on the API client, the manual provisioner, lines written to the
context) is recorded, in order, in a list of events.  Functions the command
imports from other packages (`instance.ParsePlacement`, `params.IsCodeNotImplemented`,
...) are fields of `Deps`; the collaborators met at run time (API client,
configuration, manual provisioner) are fields of `World`.
-/

namespace Juju

/-- A Go `error` value.  `value` is an error produced by a collaborator (its
`id` tells two errors with the same text apart), `errorf` is the result of
`fmt.Errorf`, `new` of `errors.New`, and `trace e` of `errors.Trace(e)`. -/
inductive GoError where
  | value (id : Nat) (msg : String)
  | errorf (msg : String)
  | new (msg : String)
  | trace (cause : GoError)
  deriving DecidableEq, Repr

/-- The text of `err.Error()`; `errors.Trace` keeps the text of its cause. -/
def GoError.Error : GoError → String
  | .value _ msg => msg
  | .errorf msg => msg
  | .new msg => msg
  | .trace cause => cause.Error

/-- The struct `instance.Placement`. -/
structure Placement where
  Scope : String
  Directive : String
  deriving DecidableEq, Repr

/-- The struct `constraints.Value`: the `Container` pointer, and the other
fields (which the command only copies) as one value. -/
structure Value where
  Container : Option String
  Other : String
  deriving DecidableEq, Repr

/-- The type `params.MachineJob`, with the two jobs the command uses. -/
inductive MachineJob where
  | JobHostUnits
  | JobManageNetworking
  deriving DecidableEq, Repr

/-- The fields of `params.AddMachineParams` that the command sets; a string
field left at its zero value is `""`. -/
structure AddMachineParams where
  Series : String
  Constraints : Value
  Jobs : List MachineJob
  Placement : Option Placement
  ParentId : String
  ContainerType : String
  deriving DecidableEq, Repr

/-- The struct `params.AddMachinesResult`. -/
structure AddMachinesResult where
  Machine : String
  Error : Option GoError
  deriving DecidableEq, Repr

/-- What `Run` reads from `*config.Config`: `ProviderType` is the value of
`config.Type()`, the other two those of the methods of the same name. -/
structure Config where
  ProviderType : String
  EnableOSRefreshUpdate : Bool
  EnableOSUpgrade : Bool
  deriving DecidableEq, Repr

/-- The fields of `manual.ProvisionMachineArgs` that carry data: the host and
the two flags of `params.UpdateBehavior`.  `Client` and the three streams are
handles of the running command. -/
structure ProvisionMachineArgs where
  Host : String
  UpdateBehavior : Bool × Bool
  deriving DecidableEq, Repr

/-- The struct `AddMachineCommand` (lines 89-99). -/
structure AddMachineCommand where
  Series : String
  Constraints : Value
  Placement : Option Placement
  NumMachines : Int
  deriving DecidableEq, Repr

/-- What a submission call of the client returns: `(results, err)`. -/
abbrev Reply := List AddMachinesResult × Option GoError

/-- One observable step of `Init` or `Run`, in the order the code takes them.
A submission call is recorded with its argument and with what it returned. -/
inductive Event where
  | ParsePlacement (arg : String)
  | getAddMachineAPI
  | Close
  | manualProvisioner (args : ProvisionMachineArgs)
  | EnvironmentUUID
  | AddMachines (machines : List AddMachineParams) (reply : Reply)
  | AddMachines1dot18 (machines : List AddMachineParams) (reply : Reply)
  | ctxInfof (line : String)
  | loggerInfof (line : String)
  | Stderr (text : String)
  deriving DecidableEq, Repr

/-- The functions and constants the command takes from other packages:
`cmd.ZeroOrOneArgs`, `instance.ParsePlacement`, `instance.ErrPlacementScopeMissing`,
`instance.ParseContainerType`, `instance.MachineScope`,
`params.IsCodeNotImplemented`, `names.IsContainerMachine`, the rendering of the
verb `%q` and `provider.MAAS`. -/
structure Deps where
  ZeroOrOneArgs : List String → String × Option GoError
  ParsePlacement : String → Option Placement × Option GoError
  ErrPlacementScopeMissing : GoError
  ParseContainerType : String → String × Option GoError
  MachineScope : String
  IsCodeNotImplemented : Option GoError → Bool
  IsContainerMachine : String → Bool
  Quote : String → String
  MAAS : String

/-- The collaborators `Run` meets: `getAddMachineAPI` (its error, `none` when a
client is returned), `configstore.Default` (its error), `c.Config`, the manual
provisioner, and the three client methods `Run` calls. -/
structure World where
  getAddMachineAPI : Option GoError
  configstoreDefault : Option GoError
  Config : Except GoError Config
  manualProvisioner : ProvisionMachineArgs → String × Option GoError
  EnvironmentUUID : String
  AddMachines : List AddMachineParams → Reply
  AddMachines1dot18 : List AddMachineParams → Reply

/-- How a call of `Run` ends: it returns an error value (`none` is nil), or a
run-time panic unwinds it. -/
inductive Outcome where
  | returned (err : Option GoError)
  | panicked (msg : String)
  deriving DecidableEq, Repr

/-- The result of `Init`: the command as `Init` leaves it, the events, and the
returned error. -/
structure InitResult where
  cmd : AddMachineCommand
  log : List Event
  err : Option GoError
  deriving DecidableEq, Repr

/-- The result of `Run`: the command as `Run` leaves it (`Run` writes
`c.Placement.Scope`), the events, and how the call ended. -/
structure RunResult where
  cmd : AddMachineCommand
  log : List Event
  out : Outcome
  deriving DecidableEq, Repr

/-- Lines 129-135 of `Init`: the parse error, if any, is returned; otherwise
the check of `-n` against the directive. -/
def InitCheck (c : AddMachineCommand) (log : List Event) (err : Option GoError) :
    InitResult :=
  match err with
  | some e => ⟨c, log, some e⟩
  | none =>
    let directiveGiven : Bool :=
      match c.Placement with
      | some p => p.Directive != ""
      | none => false
    if c.NumMachines > 1 ∧ directiveGiven = true then
      ⟨c, log, some (.errorf "cannot use -n when specifying a placement directive")⟩
    else ⟨c, log, none⟩

/-- `AddMachineCommand.Init` (lines 116-136). -/
def Init (D : Deps) (c : AddMachineCommand) (args : List String) : InitResult :=
  match c.Constraints.Container with
  | some ct =>
    ⟨c, [], some (.errorf ("container constraint " ++ D.Quote ct
      ++ " not allowed when adding a machine"))⟩
  | none =>
    match D.ZeroOrOneArgs args with
    | (_, some err) => ⟨c, [], some err⟩
    | (placement, none) =>
      let r1 := D.ParsePlacement placement
      if r1.2 = some D.ErrPlacementScopeMissing then
        let placement2 := "env-uuid" ++ ":" ++ placement
        let r2 := D.ParsePlacement placement2
        InitCheck { c with Placement := r2.1 }
          [Event.ParsePlacement placement, Event.ParsePlacement placement2] r2.2
      else
        InitCheck { c with Placement := r1.1 } [Event.ParsePlacement placement] r1.2

/-- Lines 187-189 of `Run`: the scope "env-uuid" is replaced, in place, by
`client.EnvironmentUUID()`. -/
def resolve (W : World) (c : AddMachineCommand) : AddMachineCommand × List Event :=
  match c.Placement with
  | some p =>
    if p.Scope = "env-uuid" then
      ({ c with Placement := some { p with Scope := W.EnvironmentUUID } },
        [Event.EnvironmentUUID])
    else (c, [])
  | none => (c, [])

/-- Lines 196-202 of `Run`: the local `jobs`. -/
def jobs (D : Deps) (config : Config) : List MachineJob :=
  let jobs := [MachineJob.JobHostUnits]
  if config.ProviderType ≠ D.MAAS then jobs ++ [MachineJob.JobManageNetworking] else jobs

/-- Lines 204-209 of `Run`: the local `machineParams`; the fields the literal
does not name are zero. -/
def machineParams (D : Deps) (config : Config) (c : AddMachineCommand) : AddMachineParams :=
  { Placement := c.Placement, Series := c.Series, Constraints := c.Constraints,
    Jobs := jobs D config, ParentId := "", ContainerType := "" }

/-- The zero value of `params.AddMachineParams`, as `make` fills a slice. -/
def zeroParams : AddMachineParams :=
  { Placement := none, Series := "", Constraints := ⟨none, ""⟩, Jobs := [],
    ParentId := "", ContainerType := "" }

/-- Lines 210-213 of `Run`: `make([]params.AddMachineParams, n)` followed by the
loop that stores `machineParams` at every index.  `make` panics when the
length is negative, which is `none` here. -/
def machines (mp : AddMachineParams) (n : Int) : Option (List AddMachineParams) :=
  if n < 0 then none
  else
    some ((List.range n.toNat).foldl (fun ms i => ms.set i mp)
      (List.replicate n.toNat zeroParams))

/-- Lines 215-236 of `Run`: the call of `AddMachines`, the fall back to
`AddMachines1dot18`, and the check of the error.  The result is the events and
either the value `Run` returns at once (`Sum.inl`) or the list `results`
(`Sum.inr`). -/
def submit (D : Deps) (W : World) (c : AddMachineCommand) (mp : AddMachineParams)
    (ms : List AddMachineParams) :
    List Event × (Option GoError ⊕ List AddMachinesResult) :=
  let r := W.AddMachines ms
  let finish (log : List Event) (r : Reply) :
      List Event × (Option GoError ⊕ List AddMachinesResult) :=
    match r.2 with
    | some err => (log, Sum.inl (some (GoError.trace err)))
    | none => (log, Sum.inr r.1)
  let fallback (mp1 : AddMachineParams) :
      List Event × (Option GoError ⊕ List AddMachinesResult) :=
    finish
      [Event.AddMachines ms r,
       Event.loggerInfof ("AddMachinesWithPlacement not supported by the API server, "
         ++ "falling back to 1.18 compatibility mode"),
       Event.AddMachines1dot18 [mp1] (W.AddMachines1dot18 [mp1])]
      (W.AddMachines1dot18 [mp1])
  if D.IsCodeNotImplemented r.2 = true then
    match c.Placement with
    | some p =>
      let parsed := D.ParseContainerType p.Scope
      match parsed.2 with
      | some _ => ([Event.AddMachines ms r], Sum.inl r.2)
      | none =>
        fallback { mp with ContainerType := parsed.1, ParentId := p.Directive,
                           Placement := none }
    | none => fallback mp
  else finish [Event.AddMachines ms r] r

/-- Lines 238-251 of `Run`: the loop over `results`; it collects the errors in
`errs` and reports every machine or container that was created. -/
def collect (D : Deps) (results : List AddMachinesResult) : List GoError × List Event :=
  results.foldl
    (fun acc machineInfo =>
      match machineInfo.Error with
      | some e => (acc.1 ++ [e], acc.2)
      | none =>
        let machineId := machineInfo.Machine
        if D.IsContainerMachine machineId = true then
          (acc.1, acc.2 ++ [Event.ctxInfof ("created container " ++ machineId)])
        else
          (acc.1, acc.2 ++ [Event.ctxInfof ("created machine " ++ machineId)]))
    ([], [])

/-- Lines 252-264 of `Run`: the failure summary and the error `Run` returns. -/
def summary (errs : List GoError) : List Event × Option GoError :=
  if h : errs.length = 1 then
    ([Event.Stderr "failed to create 1 machine\n"], some (errs.get ⟨0, by omega⟩))
  else if errs.length > 1 then
    let returnErr := errs.foldl (fun acc e => acc ++ [e.Error]) []
    ([Event.Stderr ("failed to create " ++ toString errs.length ++ " machines\n")],
      some (GoError.new (String.intercalate ", " returnErr)))
  else ([], none)

/-- Lines 238-264 of `Run`: what is written while the results are read, and the
error `Run` returns. -/
def report (D : Deps) (results : List AddMachinesResult) : List Event × Option GoError :=
  let collected := collect D results
  let final := summary collected.1
  (collected.2 ++ final.1, final.2)

/-- Lines 187-265 of `Run`: everything after the manual branch. -/
def RunBatch (D : Deps) (W : World) (config : Config) (c : AddMachineCommand) : RunResult :=
  let c1 := (resolve W c).1
  let log1 := (resolve W c).2
  let machineScoped : Bool :=
    match c1.Placement with
    | some p => p.Scope == D.MachineScope
    | none => false
  if machineScoped = true then
    ⟨c1, log1, .returned (some (.errorf "machine-id cannot be specified when adding machines"))⟩
  else
    let mp := machineParams D config c1
    match machines mp c1.NumMachines with
    | none => ⟨c1, log1, .panicked "runtime error: makeslice: len out of range"⟩
    | some ms =>
      match submit D W c1 mp ms with
      | (log2, Sum.inl err) => ⟨c1, log1 ++ log2, .returned err⟩
      | (log2, Sum.inr results) =>
        ⟨c1, log1 ++ log2 ++ (report D results).1, .returned (report D results).2⟩

/-- Lines 160-185 of `Run`, then `RunBatch`: the configuration is loaded, and a
placement of scope "ssh" is handed to the manual provisioner. -/
def RunWithClient (D : Deps) (W : World) (c : AddMachineCommand) : RunResult :=
  match W.configstoreDefault with
  | some err => ⟨c, [], .returned (some err)⟩
  | none =>
    match W.Config with
    | .error err => ⟨c, [], .returned (some err)⟩
    | .ok config =>
      let manual (p : Placement) : RunResult :=
        let args : ProvisionMachineArgs :=
          { Host := p.Directive,
            UpdateBehavior := (config.EnableOSRefreshUpdate, config.EnableOSUpgrade) }
        let r := W.manualProvisioner args
        match r.2 with
        | none =>
          ⟨c, [Event.manualProvisioner args, Event.ctxInfof ("created machine " ++ r.1)],
            .returned none⟩
        | some err => ⟨c, [Event.manualProvisioner args], .returned (some err)⟩
      match c.Placement with
      | some p => if p.Scope = "ssh" then manual p else RunBatch D W config c
      | none => RunBatch D W config c

/-- `AddMachineCommand.Run` (lines 153-265).  The deferred `client.Close()` runs
last on every path that obtained a client. -/
def Run (D : Deps) (W : World) (c : AddMachineCommand) : RunResult :=
  match W.getAddMachineAPI with
  | some err => ⟨c, [Event.getAddMachineAPI], .returned (some (.trace err))⟩
  | none =>
    let r := RunWithClient D W c
    ⟨r.cmd, [Event.getAddMachineAPI] ++ r.log ++ [Event.Close], r.out⟩

/-! ## Reading a list of events -/

/-- True of the events that are calls on the API client or on the manual
provisioner. -/
def Event.isBackendCall : Event → Bool
  | .getAddMachineAPI => true
  | .Close => true
  | .manualProvisioner _ => true
  | .EnvironmentUUID => true
  | .AddMachines _ _ => true
  | .AddMachines1dot18 _ _ => true
  | _ => false

/-- The argument of every call of `client.AddMachines`, in order. -/
def batchCalls (log : List Event) : List (List AddMachineParams) :=
  log.filterMap (fun ev => match ev with | .AddMachines ms _ => some ms | _ => none)

/-- The argument of every call of `client.AddMachines1dot18`, in order. -/
def legacyCalls (log : List Event) : List (List AddMachineParams) :=
  log.filterMap (fun ev => match ev with | .AddMachines1dot18 ms _ => some ms | _ => none)

/-- What the submission calls (`AddMachines`, `AddMachines1dot18`) returned, in
order. -/
def replies (log : List Event) : List Reply :=
  log.filterMap (fun ev =>
    match ev with
    | .AddMachines _ r => some r
    | .AddMachines1dot18 _ r => some r
    | _ => none)

/-- The argument of every call of the manual provisioner, in order. -/
def provisionerCalls (log : List Event) : List ProvisionMachineArgs :=
  log.filterMap (fun ev => match ev with | .manualProvisioner args => some args | _ => none)

/-- The number of calls of `client.EnvironmentUUID`. -/
def uuidCalls (log : List Event) : Nat :=
  log.count Event.EnvironmentUUID

/-- The lines reported with `ctx.Infof`, in order. -/
def infoLines (log : List Event) : List String :=
  log.filterMap (fun ev => match ev with | .ctxInfof line => some line | _ => none)

/-- The texts written to `ctx.Stderr`, in order. -/
def stderrWrites (log : List Event) : List String :=
  log.filterMap (fun ev => match ev with | .Stderr text => some text | _ => none)

/-- `Run` has a client and a configuration: `getAddMachineAPI`,
`configstore.Default` and `c.Config` all succeed (lines 154-165). -/
structure Ready (W : World) (config : Config) : Prop where
  api : W.getAddMachineAPI = none
  store : W.configstoreDefault = none
  loaded : W.Config = .ok config

/-- `Run` reaches the call of `client.AddMachines` (line 215) with the batch
`ms`: it has a client and a configuration, the placement is not of scope "ssh",
it is not of machine scope once "env-uuid" is resolved, and `make` built the
slice. -/
structure Reaches (D : Deps) (W : World) (config : Config) (c : AddMachineCommand)
    (ms : List AddMachineParams) : Prop where
  ready : Ready W config
  notSSH : ∀ p, c.Placement = some p → p.Scope ≠ "ssh"
  notMachine : ∀ p, (resolve W c).1.Placement = some p → p.Scope ≠ D.MachineScope
  built : machines (machineParams D config (resolve W c).1) c.NumMachines = some ms

/-! ## A concrete set of dependencies and collaborators, for evaluation -/

/-- The split of a string at its first colon, if it has one. -/
def splitColon : List Char → Option (List Char × List Char)
  | [] => none
  | ch :: rest =>
    if ch = ':' then some ([], rest)
    else
      match splitColon rest with
      | some (scope, directive) => some (ch :: scope, directive)
      | none => none

/-- Modelled from the spec: `instance.ErrPlacementScopeMissing` is not under
src/; the error by which the placement grammar reports "scope missing". -/
def specErrPlacementScopeMissing : GoError := .value 0 "placement scope missing"

/-- Modelled from the spec: `instance.ParseContainerType` is not under src/;
the container types the spec names are "lxc" and "kvm". -/
def specParseContainerType (s : String) : String × Option GoError :=
  if s = "lxc" ∨ s = "kvm" then (s, none)
  else ("", some (.errorf ("invalid container type " ++ s)))

/-- Modelled from the spec: `instance.ParsePlacement` is not under src/.  Empty
input gives no directive; input with a colon is split at the first colon, scope
and directive taken verbatim; input without a colon is a bare scope when it is a
container type, a machine identifier when it is a number, and otherwise the
grammar reports "scope missing". -/
def specParsePlacement (s : String) : Option Placement × Option GoError :=
  if s = "" then (none, none)
  else
    match splitColon s.data with
    | some (scope, directive) => (some ⟨String.mk scope, String.mk directive⟩, none)
    | none =>
      if (specParseContainerType s).2 = none then (some ⟨s, ""⟩, none)
      else if s.data.all Char.isDigit = true then (some ⟨"#", s⟩, none)
      else (none, some specErrPlacementScopeMissing)

/-- Modelled from the spec: the packages behind `Deps` are not under src/.  One
argument at most; the grammar above; "not implemented" is the error of id 501;
a machine id with a slash names a container. -/
def specDeps : Deps where
  ZeroOrOneArgs := fun args =>
    match args with
    | [] => ("", none)
    | [a] => (a, none)
    | _ => ("", some (.errorf "unrecognized args"))
  ParsePlacement := specParsePlacement
  ErrPlacementScopeMissing := specErrPlacementScopeMissing
  ParseContainerType := specParseContainerType
  MachineScope := "#"
  IsCodeNotImplemented := fun err =>
    match err with
    | some (.value 501 _) => true
    | _ => false
  IsContainerMachine := fun machineId => machineId.data.contains '/'
  Quote := fun s => "<" ++ s ++ ">"
  MAAS := "maas"

/-- A world for evaluation: every collaborator succeeds, the environment is
"deadbeef", and both submission calls create machine "0". -/
def calmWorld : World where
  getAddMachineAPI := none
  configstoreDefault := none
  Config := .ok ⟨"ec2", true, false⟩
  manualProvisioner := fun _ => ("7", none)
  EnvironmentUUID := "deadbeef"
  AddMachines := fun _ => ([⟨"0", none⟩], none)
  AddMachines1dot18 := fun _ => ([⟨"0", none⟩], none)

/-- A world whose server predates placement: `AddMachines` fails with the "not
implemented" error of id 501, `AddMachines1dot18` creates container "4/lxc/0". -/
def legacyWorld : World :=
  { calmWorld with
    AddMachines := fun _ => ([], some (.value 501 "not implemented"))
    AddMachines1dot18 := fun _ => ([⟨"4/lxc/0", none⟩], none) }

/-- A world whose `AddMachines` succeeds and returns the results `rs`. -/
def answeringWorld (rs : List AddMachinesResult) : World :=
  { calmWorld with AddMachines := fun _ => (rs, none) }

/-- The claim of wire exclusivity for one request: exactly one of `Placement`
(non-nil) and the pair (`ContainerType`, `ParentId`) is populated. -/
def WireExclusive (r : AddMachineParams) : Prop :=
  (r.Placement ≠ none ∧ r.ContainerType = "" ∧ r.ParentId = "")
    ∨ (r.Placement = none ∧ (r.ContainerType ≠ "" ∨ r.ParentId ≠ ""))

/-! ## The periodic worker (worker/toolsversionchecker/worker.go)

`toolsversionchecker.New` hands its check to `worker.NewPeriodicWorker`.  The
worker is a state machine driven by its clock: time is counted in nanoseconds
since the worker was started, and the events are the advances of the clock and
the request to stop.  Between two events the worker is at rest, waiting for its
next tick or for the request to stop. -/

/-- The lifecycle of a worker handle: `Starting`, then `Running`, then
`Stopped` (clean) or `Faulted` (the error is latched). -/
inductive Phase where
  | Starting
  | Running
  | Stopped
  | Faulted (err : GoError)
  deriving DecidableEq, Repr

/-- A periodic worker with its clock.  `call k` is what the `k`-th invocation of
the action returns (`none` is nil), `now` is the clock, `due` the time of
the next scheduled invocation, and `calls` the clock readings at which the
action was invoked, the latest first. -/
structure PeriodicWorker where
  call : Nat → Option GoError
  period : Nat
  phase : Phase
  now : Nat
  due : Nat
  calls : List Nat

/-- What happens to a worker from outside: the clock advances by `d`, or the
owner asks it to stop. -/
inductive WorkerEvent where
  | Advance (d : Nat)
  | Stop
  deriving DecidableEq, Repr

/-- Modelled from the spec: the loop body of the periodic worker, which is not
under src/.  The action is invoked now; when it succeeds the next invocation is
scheduled after `period` has elapsed on the clock, when it returns an error the
loop ends and the error is latched. -/
def PeriodicWorker.invoke (w : PeriodicWorker) : PeriodicWorker :=
  match w.call (w.calls.length + 1) with
  | none =>
    { w with phase := Phase.Running, due := w.now + w.period, calls := w.now :: w.calls }
  | some err => { w with phase := Phase.Faulted err, calls := w.now :: w.calls }

/-- Modelled from the spec: `worker.NewPeriodicWorker` is not under src/.  On
start the action is invoked immediately, not after one period. -/
def NewPeriodicWorker (call : Nat → Option GoError) (period : Nat) : PeriodicWorker :=
  PeriodicWorker.invoke
    { call := call, period := period, phase := Phase.Starting, now := 0, due := 0, calls := [] }

/-- Modelled from the spec: the reaction of the periodic worker, which is not
under src/, to one event.  A running worker whose scheduled time has come invokes
the action; a worker that is stopped or faulted never runs the action again; a
request to stop ends a worker that has not faulted, and changes nothing
otherwise. -/
def PeriodicWorker.step (w : PeriodicWorker) : WorkerEvent → PeriodicWorker
  | .Advance d =>
    match w.phase with
    | .Running =>
      if w.due ≤ w.now + d then PeriodicWorker.invoke { w with now := w.now + d }
      else { w with now := w.now + d }
    | _ => { w with now := w.now + d }
  | .Stop =>
    match w.phase with
    | .Faulted _ => w
    | _ => { w with phase := Phase.Stopped }

/-- Modelled from the spec: `Wait` of the worker handle, which is not under
src/.  It blocks (`none`) until the handle is stopped or faulted, and returns
the latched error (nil for a stopped worker). -/
def PeriodicWorker.Wait (w : PeriodicWorker) : Option (Option GoError) :=
  match w.phase with
  | .Stopped => some none
  | .Faulted err => some (some err)
  | _ => none

/-- The worker after a course of events. -/
def PeriodicWorker.run (w : PeriodicWorker) (evs : List WorkerEvent) : PeriodicWorker :=
  evs.foldl PeriodicWorker.step w

/-- The struct `VersionCheckerParams` (lines 19-21); the interval is a number of
nanoseconds. -/
structure VersionCheckerParams where
  CheckInterval : Nat
  deriving DecidableEq, Repr

/-- `toolsVersionWorker.doCheck` (lines 43-49), given what `errors.Annotate`
is and what this call of `api.UpdateToolsVersion()` returns. -/
def doCheck (Annotate : GoError → String → GoError) (UpdateToolsVersion : Option GoError) :
    Option GoError :=
  match UpdateToolsVersion with
  | some err => some (Annotate err "cannot update tools information")
  | none => none

/-- `toolsversionchecker.New` (lines 26-36): `api k` is what the `k`-th call of
`api.UpdateToolsVersion()` returns; every invocation of `f` makes one such
call. -/
def New (Annotate : GoError → String → GoError) (api : Nat → Option GoError)
    (params : VersionCheckerParams) : PeriodicWorker :=
  let f := fun k => doCheck Annotate (api k)
  NewPeriodicWorker f params.CheckInterval

/-- The invariant of a worker whose action first fails, with `e`, on its `n`-th
invocation. -/
structure Latch (n : Nat) (e : GoError) (w : PeriodicWorker) : Prop where
  quiet : ∀ k, 1 ≤ k → k < n → w.call k = none
  fails : w.call n = some e
  started : 1 ≤ w.calls.length
  bounded : w.calls.length ≤ n
  latched : w.calls.length = n → w.phase = Phase.Faulted e
  alive : w.calls.length < n → w.phase = Phase.Running ∨ w.phase = Phase.Stopped
  scheduled : w.phase = Phase.Running → w.due ≤ w.now + w.period
  recent : ∀ t, w.calls.head? = some t →
    t ≤ w.now ∧ (w.phase = Phase.Running → w.due = t + w.period)
  spaced : List.Chain' (fun later earlier => earlier + w.period ≤ later) w.calls
  first : w.calls.getLast? = some 0

/-- Sample: `errors.Annotate` as the text it renders. -/
def sampleAnnotate (err : GoError) (msg : String) : GoError :=
  GoError.errorf (msg ++ ": " ++ err.Error)

/-- Sample: a facade whose second call fails, as the stub of
`TestDelayedUpdateError`. -/
def failsSecond (k : Nat) : Option GoError :=
  if k = 2 then some (GoError.new "no more updates for you") else none

/-! ## Init -/

/-- C4. Container-constraint rejection: whenever the constraints carry a
container, `Init` returns the "container constraint ... not allowed when adding
a machine" error, whatever the arguments, series and machine count; it does so
before the placement argument is examined: nothing is parsed and the command,
its `Placement` included, is left as it was. -/
theorem init_rejects_container_constraint (D : Deps) (c : AddMachineCommand)
    (args : List String) (ct : String) (hc : c.Constraints.Container = some ct) :
    (Init D c args).err = some (.errorf ("container constraint " ++ D.Quote ct
        ++ " not allowed when adding a machine"))
      ∧ (Init D c args).cmd = c
      ∧ (Init D c args).log = [] := by
  simp [Init, hc]

/-- Instance of C4: a "kvm" container constraint with the argument "lxc:4". -/
theorem init_rejects_container_constraint_witness :
    (Init specDeps ⟨"trusty", ⟨some "kvm", "mem=8G"⟩, none, 3⟩ ["lxc:4"]).err
        = some (.errorf ("container constraint " ++ specDeps.Quote "kvm"
            ++ " not allowed when adding a machine"))
      ∧ (Init specDeps ⟨"trusty", ⟨some "kvm", "mem=8G"⟩, none, 3⟩ ["lxc:4"]).cmd
        = ⟨"trusty", ⟨some "kvm", "mem=8G"⟩, none, 3⟩
      ∧ (Init specDeps ⟨"trusty", ⟨some "kvm", "mem=8G"⟩, none, 3⟩ ["lxc:4"]).log = [] :=
  init_rejects_container_constraint specDeps ⟨"trusty", ⟨some "kvm", "mem=8G"⟩, none, 3⟩
    ["lxc:4"] "kvm" rfl

/-- The check of lines 132-135, read off `InitCheck` when the parse succeeded. -/
theorem InitCheck_ok (c : AddMachineCommand) (log : List Event) :
    (InitCheck c log none).cmd = c ∧ (InitCheck c log none).log = log
      ∧ (InitCheck c log none).err
        = if c.NumMachines > 1 ∧ ∃ p, c.Placement = some p ∧ p.Directive ≠ "" then
            some (.errorf "cannot use -n when specifying a placement directive")
          else none := by
  unfold InitCheck
  rcases hp : c.Placement with _ | p
  · simp
  · by_cases hd : p.Directive = "" <;> by_cases hn : c.NumMachines > 1 <;> simp [hd, hn]

/-- C3. Batch/directive exclusivity: with no container constraint and a
placement argument that parses (at once, or as "env-uuid:" + argument after the
grammar reported "scope missing") to `pl`, `Init` stores `pl` and fails with
"cannot use -n when specifying a placement directive" if and only if
NumMachines > 1 and `pl` is non-nil with a non-empty directive; otherwise it
succeeds.  In either case its only events are calls of the parser: no backend
call is made. -/
theorem init_batch_directive_exclusive (D : Deps) (c : AddMachineCommand)
    (args : List String) (s : String) (pl : Option Placement)
    (hc : c.Constraints.Container = none)
    (hargs : D.ZeroOrOneArgs args = (s, none))
    (hparse : D.ParsePlacement s = (pl, none)
      ∨ ((D.ParsePlacement s).2 = some D.ErrPlacementScopeMissing
          ∧ D.ParsePlacement ("env-uuid" ++ ":" ++ s) = (pl, none))) :
    (Init D c args).cmd.Placement = pl
      ∧ ((Init D c args).err
            = some (.errorf "cannot use -n when specifying a placement directive")
          ↔ (c.NumMachines > 1 ∧ ∃ p, pl = some p ∧ p.Directive ≠ ""))
      ∧ (¬ (c.NumMachines > 1 ∧ ∃ p, pl = some p ∧ p.Directive ≠ "")
          → (Init D c args).err = none)
      ∧ (∀ ev ∈ (Init D c args).log, ev.isBackendCall = false) := by
  have key : ∀ log, (∀ ev ∈ log, Event.isBackendCall ev = false) →
      Init D c args = InitCheck { c with Placement := pl } log none →
      (Init D c args).cmd.Placement = pl
      ∧ ((Init D c args).err
            = some (.errorf "cannot use -n when specifying a placement directive")
          ↔ (c.NumMachines > 1 ∧ ∃ p, pl = some p ∧ p.Directive ≠ ""))
      ∧ (¬ (c.NumMachines > 1 ∧ ∃ p, pl = some p ∧ p.Directive ≠ "")
          → (Init D c args).err = none)
      ∧ (∀ ev ∈ (Init D c args).log, ev.isBackendCall = false) := by
    intro log hlog h
    obtain ⟨h1, h2, h3⟩ := InitCheck_ok { c with Placement := pl } log
    rw [h, h1, h2, h3]
    refine ⟨rfl, ?_, ?_, hlog⟩
    · by_cases hcond : c.NumMachines > 1 ∧ ∃ p, pl = some p ∧ p.Directive ≠ ""
      · simp [hcond]
      · simp only [hcond, if_false, iff_false]
        simp
    · intro hcond
      simp only [hcond, if_false]
  rcases hparse with h | ⟨hm, h⟩
  · apply key [Event.ParsePlacement s]
    · intro ev hev
      simp at hev
      subst hev
      rfl
    · simp [Init, hc, hargs, h]
  · apply key [Event.ParsePlacement s, Event.ParsePlacement ("env-uuid" ++ ":" ++ s)]
    · intro ev hev
      simp at hev
      rcases hev with hev | hev <;> subst hev <;> rfl
    · have hlit : "env-uuid" ++ ":" ++ s = "env-uuid:" ++ s := rfl
      rw [hlit] at h
      simp [Init, hc, hargs, hm, h]

/-- Instance of C3: the bare container type "lxc" with NumMachines 2 is
accepted, and `Init` only calls the parser. -/
theorem init_batch_directive_exclusive_witness :
    (Init specDeps ⟨"", ⟨none, ""⟩, none, 2⟩ ["lxc"]).cmd.Placement = some ⟨"lxc", ""⟩
      ∧ (Init specDeps ⟨"", ⟨none, ""⟩, none, 2⟩ ["lxc"]).err = none
      ∧ (∀ ev ∈ (Init specDeps ⟨"", ⟨none, ""⟩, none, 2⟩ ["lxc"]).log,
          ev.isBackendCall = false) :=
  have h := init_batch_directive_exclusive specDeps ⟨"", ⟨none, ""⟩, none, 2⟩ ["lxc"]
    "lxc" (some ⟨"lxc", ""⟩) rfl rfl (Or.inl (by decide))
  ⟨h.1, h.2.2.1 (by simp), h.2.2.2⟩

/-- C5. Scope-default law: when the grammar reports "scope missing" for the
argument `s` and splits "env-uuid:" + s at its colon into scope "env-uuid" and
directive `s`, `Init` with no container constraint and NumMachines <= 1
succeeds, having parsed `s` and then "env-uuid:" + s, and its `Placement` is
the result of that second parse: scope "env-uuid", directive `s`.  A parse
error other than "scope missing" is returned unchanged, after the one parse of
`s` and no other. -/
theorem init_scope_default (D : Deps) (c : AddMachineCommand) (args : List String)
    (s : String) (hc : c.Constraints.Container = none)
    (hargs : D.ZeroOrOneArgs args = (s, none)) :
    ((D.ParsePlacement s).2 = some D.ErrPlacementScopeMissing →
      D.ParsePlacement ("env-uuid" ++ ":" ++ s) = (some ⟨"env-uuid", s⟩, none) →
      c.NumMachines ≤ 1 →
        (Init D c args).err = none
        ∧ (Init D c args).cmd.Placement = (D.ParsePlacement ("env-uuid" ++ ":" ++ s)).1
        ∧ (Init D c args).cmd.Placement = some ⟨"env-uuid", s⟩
        ∧ (Init D c args).log
          = [Event.ParsePlacement s, Event.ParsePlacement ("env-uuid" ++ ":" ++ s)])
    ∧ (∀ e, (D.ParsePlacement s).2 = some e → e ≠ D.ErrPlacementScopeMissing →
        (Init D c args).err = some e
        ∧ (Init D c args).log = [Event.ParsePlacement s]) := by
  constructor
  · intro hm hsplit hn
    have hn1 : ¬ c.NumMachines > 1 := by omega
    have hlit : "env-uuid" ++ ":" ++ s = "env-uuid:" ++ s := rfl
    rw [hlit] at hsplit
    simp [Init, hc, hargs, hm, hsplit, InitCheck, hn1]
  · intro e he hne
    simp [Init, hc, hargs, he, hne, InitCheck]

/-- Instance of C5: the argument "zone=us-east-1a" becomes scope "env-uuid" with
directive "zone=us-east-1a". -/
theorem init_scope_default_witness :
    (Init specDeps ⟨"", ⟨none, ""⟩, none, 1⟩ ["zone=us-east-1a"]).err = none
      ∧ (Init specDeps ⟨"", ⟨none, ""⟩, none, 1⟩ ["zone=us-east-1a"]).cmd.Placement
        = some ⟨"env-uuid", "zone=us-east-1a"⟩ :=
  have h := (init_scope_default specDeps ⟨"", ⟨none, ""⟩, none, 1⟩ ["zone=us-east-1a"]
    "zone=us-east-1a" rfl rfl).1 (by decide) (by decide) (by decide)
  ⟨h.1, h.2.2.1⟩

/-! ## Run: the path to the submission -/

/-- The resolution of "env-uuid" touches nothing but the placement's scope. -/
theorem resolve_fields (W : World) (c : AddMachineCommand) :
    (resolve W c).1.Series = c.Series ∧ (resolve W c).1.Constraints = c.Constraints
      ∧ (resolve W c).1.NumMachines = c.NumMachines
      ∧ replies (resolve W c).2 = [] ∧ batchCalls (resolve W c).2 = []
      ∧ legacyCalls (resolve W c).2 = [] ∧ stderrWrites (resolve W c).2 = [] := by
  unfold resolve
  rcases c.Placement with _ | p
  · simp [replies, batchCalls, legacyCalls, stderrWrites]
  · by_cases h : p.Scope = "env-uuid" <;>
      simp [h, replies, batchCalls, legacyCalls, stderrWrites]

/-- The events that open and close a run are no submission calls. -/
theorem replies_wrap (log : List Event) :
    replies ([Event.getAddMachineAPI] ++ log ++ [Event.Close]) = replies log := by
  simp [replies, List.filterMap_append]

/-- The loop of lines 211-213 after `k` rounds: the first `k` entries hold the
request, the others are still zero. -/
theorem fill_range (mp z : AddMachineParams) (n : Nat) :
    ∀ k, k ≤ n →
      (List.range k).foldl (fun ms i => ms.set i mp) (List.replicate n z)
        = List.replicate k mp ++ List.replicate (n - k) z := by
  intro k
  induction k with
  | zero => intro _; simp
  | succ k ih =>
    intro hk
    rw [List.range_succ, List.foldl_append, ih (by omega)]
    obtain ⟨m, hm⟩ : ∃ m, n - k = m + 1 := ⟨n - k - 1, by omega⟩
    have hm2 : n - (k + 1) = m := by omega
    have hk1 : List.replicate (k + 1) mp = List.replicate k mp ++ [mp] :=
      List.replicate_succ' k mp
    rw [hm, hm2, hk1]
    simp [List.set_append, List.replicate_succ]

/-- A non-negative count yields that many copies of the request. -/
theorem machines_eq (mp : AddMachineParams) (n : Int) (hn : 0 ≤ n) :
    machines mp n = some (List.replicate n.toNat mp) := by
  have h := fill_range mp zeroParams n.toNat n.toNat (le_refl _)
  simp only [machines, not_lt.mpr hn, if_false, h]
  simp

/-- The slice is built exactly for the non-negative counts. -/
theorem machines_some (mp : AddMachineParams) (n : Int) (ms : List AddMachineParams)
    (h : machines mp n = some ms) : 0 ≤ n ∧ ms = List.replicate n.toNat mp := by
  by_cases hn : n < 0
  · simp [machines, hn] at h
  · have hn2 : 0 ≤ n := by omega
    rw [machines_eq mp n hn2] at h
    exact ⟨hn2, (Option.some.inj h).symm⟩

/-- What `Run` is once it reaches the submission: the events up to it, the
submission of lines 215-236, and the report of lines 238-264. -/
theorem Run_of_reaches (D : Deps) (W : World) (config : Config) (c : AddMachineCommand)
    (ms : List AddMachineParams) (h : Reaches D W config c ms) :
    Run D W c
      = ⟨(resolve W c).1,
          [Event.getAddMachineAPI] ++ ((resolve W c).2
            ++ (submit D W (resolve W c).1 (machineParams D config (resolve W c).1) ms).1
            ++ (match (submit D W (resolve W c).1 (machineParams D config (resolve W c).1) ms).2 with
                | Sum.inl _ => []
                | Sum.inr results => (report D results).1)) ++ [Event.Close],
          (match (submit D W (resolve W c).1 (machineParams D config (resolve W c).1) ms).2 with
            | Sum.inl err => .returned err
            | Sum.inr results => .returned (report D results).2)⟩ := by
  have hb := h.built
  rw [← (resolve_fields W c).2.2.1] at hb
  have hscope : (match (resolve W c).1.Placement with
      | some p => p.Scope == D.MachineScope
      | none => false) = false := by
    rcases hp : (resolve W c).1.Placement with _ | p
    · rfl
    · simpa using h.notMachine p hp
  have hbatch : RunWithClient D W c = RunBatch D W config c := by
    unfold RunWithClient
    rcases hp : c.Placement with _ | p
    · simp [h.ready.store, h.ready.loaded]
    · simp [h.ready.store, h.ready.loaded, h.notSSH p hp]
  unfold Run
  rw [h.ready.api]
  simp only [hbatch]
  unfold RunBatch
  simp only [hscope, hb]
  rcases hs : submit D W (resolve W c).1 (machineParams D config (resolve W c).1) ms
    with ⟨log2, err | results⟩ <;> simp

/-- A submission call in the events of `Run` means that `Run` reached line 215. -/
theorem reaches_of_reply (D : Deps) (W : World) (c : AddMachineCommand)
    (h : replies (Run D W c).log ≠ []) :
    ∃ config ms, Reaches D W config c ms := by
  rcases hapi : W.getAddMachineAPI with _ | e
  swap
  · simp [Run, hapi, replies] at h
  rcases hst : W.configstoreDefault with _ | e
  swap
  · simp [Run, RunWithClient, hapi, hst, replies] at h
  rcases hcfg : W.Config with e | config
  · simp [Run, RunWithClient, hapi, hst, hcfg, replies] at h
  have hssh : ∀ p, c.Placement = some p → p.Scope ≠ "ssh" := by
    intro p hp hs
    simp [Run, RunWithClient, hapi, hst, hcfg, hp, hs, replies] at h
    rcases hm : (W.manualProvisioner
      ⟨p.Directive, (config.EnableOSRefreshUpdate, config.EnableOSUpgrade)⟩).2 with _ | e <;>
      simp [hm] at h
  have hbatch : RunWithClient D W c = RunBatch D W config c := by
    unfold RunWithClient
    rcases hp : c.Placement with _ | p
    · simp [hst, hcfg]
    · simp [hst, hcfg, hssh p hp]
  have hrep := (resolve_fields W c).2.2.2.1
  have hms : ∀ p, (resolve W c).1.Placement = some p → p.Scope ≠ D.MachineScope := by
    intro p hp hs
    have hlog : (Run D W c).log
        = [Event.getAddMachineAPI] ++ (resolve W c).2 ++ [Event.Close] := by
      simp [Run, hapi, hbatch, RunBatch, hp, hs]
    rw [hlog, replies_wrap, hrep] at h
    exact h rfl
  rcases hb : machines (machineParams D config (resolve W c).1) (resolve W c).1.NumMachines
    with _ | ms
  · exfalso
    have hscope : (match (resolve W c).1.Placement with
        | some p => p.Scope == D.MachineScope
        | none => false) = false := by
      rcases hp : (resolve W c).1.Placement with _ | p
      · rfl
      · simpa using hms p hp
    have hlog : (Run D W c).log
        = [Event.getAddMachineAPI] ++ (resolve W c).2 ++ [Event.Close] := by
      simp [Run, hapi, hbatch, RunBatch, hscope, hb]
    rw [hlog, replies_wrap, hrep] at h
    exact h rfl
  · rw [(resolve_fields W c).2.2.1] at hb
    exact ⟨config, ms, ⟨hapi, hst, hcfg⟩, hssh, hms, hb⟩

/-! ## Run: the submission and the report -/

/-- The three ways through lines 215-236: (A) the error is not classified as
"not implemented"; (B) it is, and the placement's scope is no container type:
the error is returned as it is; (C) it is, and one request goes to
`AddMachines1dot18`: the unchanged request when there is no placement, the
rewritten one otherwise. -/
theorem submit_cases (D : Deps) (W : World) (c : AddMachineCommand) (mp : AddMachineParams)
    (ms : List AddMachineParams) :
    (D.IsCodeNotImplemented (W.AddMachines ms).2 = false
      ∧ submit D W c mp ms
        = ([Event.AddMachines ms (W.AddMachines ms)],
            match (W.AddMachines ms).2 with
            | some err => Sum.inl (some (GoError.trace err))
            | none => Sum.inr (W.AddMachines ms).1))
    ∨ (D.IsCodeNotImplemented (W.AddMachines ms).2 = true
      ∧ ∃ p perr, c.Placement = some p ∧ (D.ParseContainerType p.Scope).2 = some perr
        ∧ submit D W c mp ms
          = ([Event.AddMachines ms (W.AddMachines ms)], Sum.inl (W.AddMachines ms).2))
    ∨ (D.IsCodeNotImplemented (W.AddMachines ms).2 = true
      ∧ ∃ mp1, ((c.Placement = none ∧ mp1 = mp)
          ∨ ∃ p, c.Placement = some p ∧ (D.ParseContainerType p.Scope).2 = none
            ∧ mp1 = ⟨mp.Series, mp.Constraints, mp.Jobs, none, p.Directive,
                (D.ParseContainerType p.Scope).1⟩)
        ∧ submit D W c mp ms
          = ([Event.AddMachines ms (W.AddMachines ms),
              Event.loggerInfof ("AddMachinesWithPlacement not supported by the API server, "
                ++ "falling back to 1.18 compatibility mode"),
              Event.AddMachines1dot18 [mp1] (W.AddMachines1dot18 [mp1])],
            match (W.AddMachines1dot18 [mp1]).2 with
            | some err => Sum.inl (some (GoError.trace err))
            | none => Sum.inr (W.AddMachines1dot18 [mp1]).1)) := by
  by_cases hni : D.IsCodeNotImplemented (W.AddMachines ms).2 = true
  · right
    rcases hp : c.Placement with _ | p
    · right
      refine ⟨hni, mp, Or.inl ⟨rfl, rfl⟩, ?_⟩
      simp only [submit, hni, hp, if_true]
      split <;> rfl
    · rcases hparse : (D.ParseContainerType p.Scope).2 with _ | perr
      · right
        refine ⟨hni, _, Or.inr ⟨p, rfl, hparse, rfl⟩, ?_⟩
        simp only [submit, hni, hp, hparse, if_true]
        split <;> rfl
      · left
        refine ⟨hni, p, perr, rfl, hparse, ?_⟩
        simp [submit, hni, hp, hparse]
  · left
    have hni2 : D.IsCodeNotImplemented (W.AddMachines ms).2 = false := by simpa using hni
    refine ⟨hni2, ?_⟩
    simp only [submit, hni2, Bool.false_eq_true, if_false]
    split <;> rfl

/-- The loop of lines 239-251 from any intermediate state: the errors are
appended in the order of the results, and every event added is a `ctx.Infof`
line. -/
theorem collect_foldl (D : Deps) (results : List AddMachinesResult) :
    ∀ acc : List GoError × List Event,
      (results.foldl
        (fun acc machineInfo =>
          match machineInfo.Error with
          | some e => (acc.1 ++ [e], acc.2)
          | none =>
            let machineId := machineInfo.Machine
            if D.IsContainerMachine machineId = true then
              (acc.1, acc.2 ++ [Event.ctxInfof ("created container " ++ machineId)])
            else
              (acc.1, acc.2 ++ [Event.ctxInfof ("created machine " ++ machineId)]))
        acc).1 = acc.1 ++ results.filterMap (fun r => r.Error)
      ∧ ∀ ev ∈ (results.foldl
        (fun acc machineInfo =>
          match machineInfo.Error with
          | some e => (acc.1 ++ [e], acc.2)
          | none =>
            let machineId := machineInfo.Machine
            if D.IsContainerMachine machineId = true then
              (acc.1, acc.2 ++ [Event.ctxInfof ("created container " ++ machineId)])
            else
              (acc.1, acc.2 ++ [Event.ctxInfof ("created machine " ++ machineId)]))
        acc).2, ev ∈ acc.2 ∨ ∃ line, ev = Event.ctxInfof line := by
  induction results with
  | nil =>
    intro acc
    simp only [List.foldl_nil, List.filterMap_nil, List.append_nil, true_and]
    intro ev hev
    exact Or.inl hev
  | cons r rest ih =>
    intro acc
    rw [List.foldl_cons]
    rcases hr : r.Error with _ | e
    · by_cases hc : D.IsContainerMachine r.Machine = true
      · obtain ⟨h1, h2⟩ := ih (acc.1, acc.2 ++ [Event.ctxInfof ("created container " ++ r.Machine)])
        simp only [hc, if_true]
        refine ⟨by simpa [hr] using h1, ?_⟩
        intro ev hev
        rcases h2 ev hev with h | h
        · simp at h
          rcases h with h | h
          · exact Or.inl h
          · exact Or.inr ⟨_, h⟩
        · exact Or.inr h
      · obtain ⟨h1, h2⟩ := ih (acc.1, acc.2 ++ [Event.ctxInfof ("created machine " ++ r.Machine)])
        simp only [hc]
        refine ⟨by simpa [hr] using h1, ?_⟩
        intro ev hev
        rcases h2 ev hev with h | h
        · simp at h
          rcases h with h | h
          · exact Or.inl h
          · exact Or.inr ⟨_, h⟩
        · exact Or.inr h
    · obtain ⟨h1, h2⟩ := ih (acc.1 ++ [e], acc.2)
      refine ⟨by simpa [hr] using h1, ?_⟩
      intro ev hev
      exact h2 ev hev

/-- The errors `collect` gathers are those of the results, in order, and its
events are `ctx.Infof` lines only. -/
theorem collect_spec (D : Deps) (results : List AddMachinesResult) :
    (collect D results).1 = results.filterMap (fun r => r.Error)
      ∧ ∀ ev ∈ (collect D results).2, ∃ line, ev = Event.ctxInfof line := by
  obtain ⟨h1, h2⟩ := collect_foldl D results ([], [])
  refine ⟨by simpa [collect] using h1, ?_⟩
  intro ev hev
  rcases h2 ev hev with h | h
  · simp at h
  · exact h

/-- A list of `ctx.Infof` lines holds no submission call and no write to
`ctx.Stderr`. -/
theorem info_only (log : List Event) (h : ∀ ev ∈ log, ∃ line, ev = Event.ctxInfof line) :
    replies log = [] ∧ batchCalls log = [] ∧ legacyCalls log = []
      ∧ stderrWrites log = [] := by
  induction log with
  | nil => simp [replies, batchCalls, legacyCalls, stderrWrites]
  | cons ev rest ih =>
    obtain ⟨line, hl⟩ := h ev (List.mem_cons_self _ _)
    obtain ⟨h1, h2, h3, h4⟩ := ih (fun ev2 hev2 => h ev2 (List.mem_cons_of_mem _ hev2))
    subst hl
    simp only [replies, batchCalls, legacyCalls, stderrWrites] at h1 h2 h3 h4 ⊢
    simp [List.filterMap_cons, h1, h2, h3, h4]

/-- The joined messages of lines 258-262 are those of `errs`, in order. -/
theorem returnErr_eq (errs : List GoError) :
    ∀ acc : List String,
      errs.foldl (fun acc e => acc ++ [e.Error]) acc = acc ++ errs.map GoError.Error := by
  induction errs with
  | nil => intro acc; simp
  | cons e rest ih => intro acc; simp [ih]

/-- What `report` writes and returns, by the number of failed results. -/
theorem report_spec (D : Deps) (results : List AddMachinesResult) :
    replies (report D results).1 = [] ∧ batchCalls (report D results).1 = []
      ∧ legacyCalls (report D results).1 = []
      ∧ (∀ e, results.filterMap (fun r => r.Error) = [e] →
          stderrWrites (report D results).1 = ["failed to create 1 machine\n"]
          ∧ (report D results).2 = some e)
      ∧ (2 ≤ (results.filterMap (fun r => r.Error)).length →
          stderrWrites (report D results).1
            = ["failed to create "
                ++ toString (results.filterMap (fun r => r.Error)).length ++ " machines\n"]
          ∧ (report D results).2
            = some (GoError.new (String.intercalate ", "
                ((results.filterMap (fun r => r.Error)).map GoError.Error))))
      ∧ (results.filterMap (fun r => r.Error) = [] →
          stderrWrites (report D results).1 = [] ∧ (report D results).2 = none) := by
  obtain ⟨hc1, hc2⟩ := collect_spec D results
  obtain ⟨i1, i2, i3, i4⟩ := info_only _ hc2
  have hsum : ∀ errs : List GoError,
      replies (summary errs).1 = [] ∧ batchCalls (summary errs).1 = []
        ∧ legacyCalls (summary errs).1 = [] := by
    intro errs
    unfold summary
    by_cases h1 : errs.length = 1
    · simp [h1, replies, batchCalls, legacyCalls]
    · by_cases h2 : errs.length > 1
      · simp [h1, h2, replies, batchCalls, legacyCalls]
      · simp [h1, h2, replies, batchCalls, legacyCalls]
  obtain ⟨s1, s2, s3⟩ := hsum (collect D results).1
  simp only [replies, batchCalls, legacyCalls, stderrWrites] at i1 i2 i3 i4 s1 s2 s3
  refine ⟨?_, ?_, ?_, ?_, ?_, ?_⟩
  · simp [report, replies, List.filterMap_append, i1, s1]
  · simp [report, batchCalls, List.filterMap_append, i2, s2]
  · simp [report, legacyCalls, List.filterMap_append, i3, s3]
  · intro e he
    rw [← hc1] at he
    simp [report, stderrWrites, List.filterMap_append, i4, summary, he]
  · intro hk
    rw [← hc1] at hk ⊢
    have h1 : ¬ (collect D results).1.length = 1 := by omega
    have h2 : (collect D results).1.length > 1 := by omega
    simp [report, stderrWrites, List.filterMap_append, i4, summary, h1, h2, returnErr_eq]
  · intro he
    rw [← hc1] at he
    simp [report, stderrWrites, List.filterMap_append, i4, summary, he]

/-- The events of the submission: one call of `AddMachines` with the batch,
then at most one call of `AddMachines1dot18`; nothing is written to
`ctx.Stderr`. -/
theorem submit_observed (D : Deps) (W : World) (c : AddMachineCommand)
    (mp : AddMachineParams) (ms : List AddMachineParams) :
    batchCalls (submit D W c mp ms).1 = [ms]
      ∧ stderrWrites (submit D W c mp ms).1 = []
      ∧ (replies (submit D W c mp ms).1).head? = some (W.AddMachines ms) := by
  rcases submit_cases D W c mp ms with ⟨_, h⟩ | ⟨_, _, _, _, _, h⟩ | ⟨_, _, _, h⟩ <;>
    simp [h, batchCalls, stderrWrites, replies]

/-- What is observed of a run that reaches the submission. -/
theorem Run_observed (D : Deps) (W : World) (config : Config) (c : AddMachineCommand)
    (ms : List AddMachineParams) (h : Reaches D W config c ms) :
    batchCalls (Run D W c).log = [ms]
      ∧ legacyCalls (Run D W c).log
        = legacyCalls (submit D W (resolve W c).1 (machineParams D config (resolve W c).1) ms).1
      ∧ replies (Run D W c).log
        = replies (submit D W (resolve W c).1 (machineParams D config (resolve W c).1) ms).1
      ∧ stderrWrites (Run D W c).log
        = (match (submit D W (resolve W c).1 (machineParams D config (resolve W c).1) ms).2 with
            | Sum.inl _ => []
            | Sum.inr results => stderrWrites (report D results).1)
      ∧ (Run D W c).out
        = (match (submit D W (resolve W c).1 (machineParams D config (resolve W c).1) ms).2 with
            | Sum.inl err => .returned err
            | Sum.inr results => .returned (report D results).2) := by
  obtain ⟨_, _, _, r1, r2, r3, r4⟩ := resolve_fields W c
  obtain ⟨s1, s2, _⟩ :=
    submit_observed D W (resolve W c).1 (machineParams D config (resolve W c).1) ms
  rw [Run_of_reaches D W config c ms h]
  simp only [replies, batchCalls, legacyCalls, stderrWrites] at r1 r2 r3 r4 s1 s2 ⊢
  rcases hs : (submit D W (resolve W c).1 (machineParams D config (resolve W c).1) ms).2
    with err | results
  · simp [List.filterMap_append, r1, r2, r3, r4, s1, s2]
  · obtain ⟨p1, p2, p3, _⟩ := report_spec D results
    simp only [replies, batchCalls, legacyCalls, stderrWrites] at p1 p2 p3
    simp [List.filterMap_append, r1, r2, r3, r4, s1, s2, p1, p2, p3]

/-- A call of `AddMachines` with `ms` among the events of `Run` means that `Run`
reached line 215 with the batch `ms`. -/
theorem reaches_of_call (D : Deps) (W : World) (c : AddMachineCommand)
    (ms : List AddMachineParams) (h : ms ∈ batchCalls (Run D W c).log) :
    ∃ config, Reaches D W config c ms := by
  have hne : replies (Run D W c).log ≠ [] := by
    simp only [batchCalls, List.mem_filterMap] at h
    obtain ⟨ev, hev, hm⟩ := h
    intro hnil
    cases ev with
    | AddMachines ms2 r =>
      have hr : r ∈ replies (Run D W c).log := by
        simp only [replies, List.mem_filterMap]
        exact ⟨_, hev, rfl⟩
      rw [hnil] at hr
      simp at hr
    | _ => simp at hm
  obtain ⟨config, ms2, hreach⟩ := reaches_of_reply D W c hne
  have hb := (Run_observed D W config c ms2 hreach).1
  rw [hb] at h
  simp at h
  subst h
  exact ⟨config, hreach⟩

/-- A submission whose last call returned `(rs, nil)` hands `rs` to the report,
provided a nil error is not classified as "not implemented". -/
theorem submit_last (D : Deps) (W : World) (c : AddMachineCommand) (mp : AddMachineParams)
    (ms : List AddMachineParams) (rs : List AddMachinesResult)
    (hnil : D.IsCodeNotImplemented none = false)
    (hlast : (replies (submit D W c mp ms).1).getLast? = some (rs, none)) :
    (submit D W c mp ms).2 = Sum.inr rs := by
  rcases submit_cases D W c mp ms with ⟨_, h⟩ | ⟨hB, _, _, _, _, h⟩ | ⟨_, mp1, _, h⟩
  · rw [h] at hlast ⊢
    simp [replies] at hlast
    simp [hlast]
  · rw [h] at hlast
    simp [replies] at hlast
    rw [hlast, hnil] at hB
    cases hB
  · rw [h] at hlast ⊢
    simp [replies] at hlast
    simp [hlast]

/-- A run whose last submission call returned `(rs, nil)` writes to
`ctx.Stderr` and returns what the report of `rs` says. -/
theorem Run_reported (D : Deps) (W : World) (c : AddMachineCommand)
    (rs : List AddMachinesResult) (hnil : D.IsCodeNotImplemented none = false)
    (hsub : (replies (Run D W c).log).getLast? = some (rs, none)) :
    stderrWrites (Run D W c).log = stderrWrites (report D rs).1
      ∧ (Run D W c).out = .returned (report D rs).2 := by
  have hne : replies (Run D W c).log ≠ [] := by
    intro h
    rw [h] at hsub
    cases hsub
  obtain ⟨config, ms, hreach⟩ := reaches_of_reply D W c hne
  obtain ⟨_, _, hr, hw, ho⟩ := Run_observed D W config c ms hreach
  rw [hr] at hsub
  rw [hw, ho, submit_last D W _ _ ms rs hnil hsub]
  exact ⟨rfl, rfl⟩

/-- A call of `AddMachines1dot18` is a submission call. -/
theorem replies_of_legacy (log : List Event) (ms : List AddMachineParams)
    (h : ms ∈ legacyCalls log) : replies log ≠ [] := by
  simp only [legacyCalls, List.mem_filterMap] at h
  obtain ⟨ev, hev, hm⟩ := h
  intro hnil
  cases ev with
  | AddMachines1dot18 ms2 r =>
    have hr : r ∈ replies log := by
      simp only [replies, List.mem_filterMap]
      exact ⟨_, hev, rfl⟩
    rw [hnil] at hr
    simp at hr
  | _ => simp at hm

/-- Batch construction for the counts `make` accepts: whenever `Run` reaches
line 215, NumMachines is not negative and the one call of `AddMachines` carries
exactly NumMachines copies of the same request: the placement with "env-uuid"
resolved, the series, the constraints and the computed jobs. -/
theorem run_batch_of_reaches (D : Deps) (W : World) (config : Config)
    (c : AddMachineCommand) (ms : List AddMachineParams) (h : Reaches D W config c ms) :
    0 ≤ c.NumMachines
      ∧ batchCalls (Run D W c).log
        = [List.replicate c.NumMachines.toNat
            ⟨c.Series, c.Constraints, jobs D config, (resolve W c).1.Placement, "", ""⟩] := by
  obtain ⟨hn, hms⟩ := machines_some _ _ _ h.built
  obtain ⟨f1, f2, _⟩ := resolve_fields W c
  refine ⟨hn, ?_⟩
  rw [(Run_observed D W config c ms h).1, hms]
  simp [machineParams, f1, f2]

/-! ## Run -/











/-- C8. Manual strategy bypasses the batch path: with a client and a
configuration, a placement of scope "ssh" makes `Run` call the manual
provisioner exactly once, with `Host` the placement's directive; `Run` itself
never calls `AddMachines`, `AddMachines1dot18` or `EnvironmentUUID`; it returns
the provisioner's error unchanged (nil on success) and reports
"created machine <id>" exactly when the provisioner succeeds. -/
theorem run_manual_bypasses_batch (D : Deps) (W : World) (config : Config)
    (c : AddMachineCommand) (p : Placement) (hr : Ready W config)
    (hp : c.Placement = some p) (hssh : p.Scope = "ssh") :
    provisionerCalls (Run D W c).log
        = [⟨p.Directive, (config.EnableOSRefreshUpdate, config.EnableOSUpgrade)⟩]
      ∧ batchCalls (Run D W c).log = []
      ∧ legacyCalls (Run D W c).log = []
      ∧ uuidCalls (Run D W c).log = 0
      ∧ (Run D W c).out = .returned (W.manualProvisioner
          ⟨p.Directive, (config.EnableOSRefreshUpdate, config.EnableOSUpgrade)⟩).2
      ∧ infoLines (Run D W c).log
        = (if (W.manualProvisioner
                ⟨p.Directive, (config.EnableOSRefreshUpdate, config.EnableOSUpgrade)⟩).2 = none
           then ["created machine " ++ (W.manualProvisioner
                ⟨p.Directive, (config.EnableOSRefreshUpdate, config.EnableOSUpgrade)⟩).1]
           else []) := by
  rcases hm : (W.manualProvisioner
      ⟨p.Directive, (config.EnableOSRefreshUpdate, config.EnableOSUpgrade)⟩).2 with _ | e
  · simp [Run, RunWithClient, hr.api, hr.store, hr.loaded, hp, hssh, hm, provisionerCalls,
      batchCalls, legacyCalls, uuidCalls, infoLines]
  · simp [Run, RunWithClient, hr.api, hr.store, hr.loaded, hp, hssh, hm, provisionerCalls,
      batchCalls, legacyCalls, uuidCalls, infoLines]

/-- Instance of C8: "ssh:user@10.10.0.3" with -n 5 is provisioned once, as
machine "7". -/
theorem run_manual_bypasses_batch_witness :
    provisionerCalls (Run specDeps calmWorld ⟨"", ⟨none, ""⟩, some ⟨"ssh", "user@10.10.0.3"⟩, 5⟩).log
        = [⟨"user@10.10.0.3", (true, false)⟩]
      ∧ batchCalls (Run specDeps calmWorld ⟨"", ⟨none, ""⟩, some ⟨"ssh", "user@10.10.0.3"⟩, 5⟩).log = []
      ∧ (Run specDeps calmWorld ⟨"", ⟨none, ""⟩, some ⟨"ssh", "user@10.10.0.3"⟩, 5⟩).out
        = .returned none
      ∧ infoLines (Run specDeps calmWorld ⟨"", ⟨none, ""⟩, some ⟨"ssh", "user@10.10.0.3"⟩, 5⟩).log
        = ["created machine 7"] :=
  have h := run_manual_bypasses_batch specDeps calmWorld ⟨"ec2", true, false⟩
    ⟨"", ⟨none, ""⟩, some ⟨"ssh", "user@10.10.0.3"⟩, 5⟩ ⟨"ssh", "user@10.10.0.3"⟩
    ⟨rfl, rfl, rfl⟩ rfl rfl
  ⟨h.1, h.2.1, h.2.2.2.2.1, h.2.2.2.2.2⟩

/-- C1. Compatibility downgrade: when `Run` calls `AddMachines` with the batch
`ms`, that call fails with an error classified as "not implemented", and the
scope of the placement (as the command holds it at the call, "env-uuid"
resolved) parses as the container type `t`, then `Run` calls
`AddMachines1dot18` exactly once, with a list of exactly one request: its
ContainerType is `t`, its ParentId the placement's directive, its Placement nil,
and its Series, Constraints and Jobs those of the original request.  The batch
`ms` has NumMachines entries; the one legacy request does not depend on it. -/
theorem run_compat_downgrade (D : Deps) (W : World) (config : Config)
    (c : AddMachineCommand) (ms : List AddMachineParams) (p : Placement) (t : String)
    (e : GoError)
    (hcfg : W.Config = .ok config)
    (hcall : ms ∈ batchCalls (Run D W c).log)
    (hfail : (W.AddMachines ms).2 = some e)
    (hni : D.IsCodeNotImplemented (some e) = true)
    (hp : (resolve W c).1.Placement = some p)
    (ht : D.ParseContainerType p.Scope = (t, none)) :
    legacyCalls (Run D W c).log
      = [[⟨c.Series, c.Constraints, jobs D config, none, p.Directive, t⟩]] := by
  obtain ⟨config2, hreach⟩ := reaches_of_call D W c ms hcall
  have hc2 : config2 = config := by
    have h := hreach.ready.loaded
    rw [hcfg] at h
    exact (Except.ok.inj h).symm
  subst hc2
  obtain ⟨f1, f2, _⟩ := resolve_fields W c
  rw [(Run_observed D W config2 c ms hreach).2.1]
  rcases submit_cases D W (resolve W c).1 (machineParams D config2 (resolve W c).1) ms
    with ⟨hA, _⟩ | ⟨_, q, perr, hq, hperr, _⟩ | ⟨_, mp1, hmp1, hsub⟩
  · rw [hfail, hni] at hA
    cases hA
  · rw [hp] at hq
    cases hq
    rw [ht] at hperr
    cases hperr
  · rcases hmp1 with ⟨hnone, _⟩ | ⟨q, hq, _, hmp1⟩
    · rw [hp] at hnone
      cases hnone
    · rw [hp] at hq
      cases hq
      rw [hsub, hmp1, ht]
      simp [legacyCalls, machineParams, f1, f2]

/-- Instance of C1: scope "lxc", directive "4", NumMachines 3 on a server that
does not implement `AddMachines`: one legacy request for an "lxc" container on
machine "4". -/
theorem run_compat_downgrade_witness :
    legacyCalls (Run specDeps legacyWorld ⟨"trusty", ⟨none, "mem=8G"⟩, some ⟨"lxc", "4"⟩, 3⟩).log
      = [[⟨"trusty", ⟨none, "mem=8G"⟩,
          [MachineJob.JobHostUnits, MachineJob.JobManageNetworking], none, "4", "lxc"⟩]] :=
  run_compat_downgrade specDeps legacyWorld ⟨"ec2", true, false⟩
    ⟨"trusty", ⟨none, "mem=8G"⟩, some ⟨"lxc", "4"⟩, 3⟩
    (List.replicate 3 ⟨"trusty", ⟨none, "mem=8G"⟩,
      [MachineJob.JobHostUnits, MachineJob.JobManageNetworking], some ⟨"lxc", "4"⟩, "", ""⟩)
    ⟨"lxc", "4"⟩ "lxc" (.value 501 "not implemented")
    rfl (by decide) rfl rfl rfl rfl

/-- C2. Compatibility non-container passthrough: when `Run` calls `AddMachines`
with the batch `ms`, that call fails with the "not implemented" error `e`, and
the scope of the (non-nil) placement does not parse as a container type, then
`Run` never calls `AddMachines1dot18` and returns exactly `e`: not traced, not
wrapped. -/
theorem run_compat_passthrough (D : Deps) (W : World) (c : AddMachineCommand)
    (ms : List AddMachineParams) (p : Placement) (e perr : GoError)
    (hcall : ms ∈ batchCalls (Run D W c).log)
    (hfail : (W.AddMachines ms).2 = some e)
    (hni : D.IsCodeNotImplemented (some e) = true)
    (hp : (resolve W c).1.Placement = some p)
    (hnot : (D.ParseContainerType p.Scope).2 = some perr) :
    legacyCalls (Run D W c).log = [] ∧ (Run D W c).out = .returned (some e) := by
  obtain ⟨config, hreach⟩ := reaches_of_call D W c ms hcall
  obtain ⟨_, hl, _, _, ho⟩ := Run_observed D W config c ms hreach
  rw [hl, ho]
  rcases submit_cases D W (resolve W c).1 (machineParams D config (resolve W c).1) ms
    with ⟨hA, _⟩ | ⟨_, q, perr2, _, _, hsub⟩ | ⟨_, mp1, hmp1, _⟩
  · rw [hfail, hni] at hA
    cases hA
  · rw [hsub, hfail]
    simp [legacyCalls]
  · rcases hmp1 with ⟨hnone, _⟩ | ⟨q, hq, hok, _⟩
    · rw [hp] at hnone
      cases hnone
    · rw [hp] at hq
      cases hq
      rw [hnot] at hok
      cases hok

/-- Instance of C2: a placement of scope "zone=us-east-1a" on a server that does
not implement `AddMachines`: no legacy call, the error comes back as it is. -/
theorem run_compat_passthrough_witness :
    legacyCalls (Run specDeps legacyWorld
        ⟨"", ⟨none, ""⟩, some ⟨"zone=us-east-1a", ""⟩, 1⟩).log = []
      ∧ (Run specDeps legacyWorld
        ⟨"", ⟨none, ""⟩, some ⟨"zone=us-east-1a", ""⟩, 1⟩).out
        = .returned (some (.value 501 "not implemented")) :=
  run_compat_passthrough specDeps legacyWorld
    ⟨"", ⟨none, ""⟩, some ⟨"zone=us-east-1a", ""⟩, 1⟩
    [⟨"", ⟨none, ""⟩, [MachineJob.JobHostUnits, MachineJob.JobManageNetworking],
      some ⟨"zone=us-east-1a", ""⟩, "", ""⟩]
    ⟨"zone=us-east-1a", ""⟩ (.value 501 "not implemented")
    (.errorf ("invalid container type " ++ "zone=us-east-1a"))
    (by decide) rfl rfl rfl rfl

/-- C6. Single failure: when the last submission call of `Run` returned the
list `rs` with a nil error (a nil error not being classified as "not
implemented"), and exactly one result of `rs` carries an error `e`, wherever it
stands among the successful results, `Run` writes exactly
"failed to create 1 machine" to `ctx.Stderr` and returns `e` itself. -/
theorem run_single_failure (D : Deps) (W : World) (c : AddMachineCommand)
    (rs : List AddMachinesResult) (e : GoError)
    (hnil : D.IsCodeNotImplemented none = false)
    (hsub : (replies (Run D W c).log).getLast? = some (rs, none))
    (hone : rs.filterMap (fun r => r.Error) = [e]) :
    stderrWrites (Run D W c).log = ["failed to create 1 machine\n"]
      ∧ (Run D W c).out = .returned (some e) := by
  obtain ⟨hw, ho⟩ := Run_reported D W c rs hnil hsub
  obtain ⟨h1, h2⟩ := (report_spec D rs).2.2.2.1 e hone
  rw [hw, ho, h1, h2]
  exact ⟨rfl, rfl⟩

/-- Instance of C6: three results, the second one failed. -/
theorem run_single_failure_witness :
    stderrWrites (Run specDeps
        (answeringWorld
          [⟨"0", none⟩, ⟨"", some (.value 7 "no instance")⟩, ⟨"2/lxc/0", none⟩])
        ⟨"", ⟨none, ""⟩, none, 3⟩).log = ["failed to create 1 machine\n"]
      ∧ (Run specDeps
        (answeringWorld
          [⟨"0", none⟩, ⟨"", some (.value 7 "no instance")⟩, ⟨"2/lxc/0", none⟩])
        ⟨"", ⟨none, ""⟩, none, 3⟩).out = .returned (some (.value 7 "no instance")) :=
  run_single_failure specDeps
    (answeringWorld [⟨"0", none⟩, ⟨"", some (.value 7 "no instance")⟩, ⟨"2/lxc/0", none⟩])
    ⟨"", ⟨none, ""⟩, none, 3⟩
    [⟨"0", none⟩, ⟨"", some (.value 7 "no instance")⟩, ⟨"2/lxc/0", none⟩]
    (.value 7 "no instance") rfl (by decide) (by decide)

/-- C7. Plural failure: when the last submission call of `Run` returned the list
`rs` with a nil error (a nil error not being classified as "not implemented"),
and k >= 2 results of `rs` carry an error, `Run` writes
"failed to create k machines" to `ctx.Stderr` and returns one new error whose
message is the messages of those k errors, in the order of the results, joined
with ", "; the successful results in between play no part. -/
theorem run_plural_failure (D : Deps) (W : World) (c : AddMachineCommand)
    (rs : List AddMachinesResult)
    (hnil : D.IsCodeNotImplemented none = false)
    (hsub : (replies (Run D W c).log).getLast? = some (rs, none))
    (hk : 2 ≤ (rs.filterMap (fun r => r.Error)).length) :
    stderrWrites (Run D W c).log
        = ["failed to create " ++ toString (rs.filterMap (fun r => r.Error)).length
            ++ " machines\n"]
      ∧ (Run D W c).out
        = .returned (some (GoError.new (String.intercalate ", "
            ((rs.filterMap (fun r => r.Error)).map GoError.Error))))
      ∧ (∀ err, (Run D W c).out = .returned (some err) →
          err.Error = String.intercalate ", "
            ((rs.filterMap (fun r => r.Error)).map GoError.Error)) := by
  obtain ⟨hw, ho⟩ := Run_reported D W c rs hnil hsub
  obtain ⟨h1, h2⟩ := (report_spec D rs).2.2.2.2.1 hk
  rw [hw, ho, h1, h2]
  refine ⟨rfl, rfl, ?_⟩
  intro err herr
  cases herr
  rfl

/-- Instance of C7: three results, the first and the last failed. -/
theorem run_plural_failure_witness :
    stderrWrites (Run specDeps
        (answeringWorld
          [⟨"", some (.value 7 "no instance")⟩, ⟨"1", none⟩,
            ⟨"", some (.value 8 "quota exceeded")⟩])
        ⟨"", ⟨none, ""⟩, none, 3⟩).log = ["failed to create 2 machines\n"]
      ∧ (Run specDeps
        (answeringWorld
          [⟨"", some (.value 7 "no instance")⟩, ⟨"1", none⟩,
            ⟨"", some (.value 8 "quota exceeded")⟩])
        ⟨"", ⟨none, ""⟩, none, 3⟩).out
        = .returned (some (GoError.new "no instance, quota exceeded")) :=
  have h := run_plural_failure specDeps
    (answeringWorld
      [⟨"", some (.value 7 "no instance")⟩, ⟨"1", none⟩, ⟨"", some (.value 8 "quota exceeded")⟩])
    ⟨"", ⟨none, ""⟩, none, 3⟩
    [⟨"", some (.value 7 "no instance")⟩, ⟨"1", none⟩, ⟨"", some (.value 8 "quota exceeded")⟩]
    rfl (by decide) (by decide)
  ⟨h.1, h.2.1⟩

/-- C9, evaluated at `juju add-machine -n -1`: `Init` accepts the command (no
placement, NumMachines -1), and `Run` then panics in `make` at line 210: it
returns nothing and never calls `AddMachines`. -/
theorem run_negative_count_panics :
    (Init specDeps ⟨"", ⟨none, ""⟩, none, -1⟩ []).err = none
      ∧ (Init specDeps ⟨"", ⟨none, ""⟩, none, -1⟩ []).cmd = ⟨"", ⟨none, ""⟩, none, -1⟩
      ∧ (Run specDeps calmWorld ⟨"", ⟨none, ""⟩, none, -1⟩).out
        = .panicked "runtime error: makeslice: len out of range"
      ∧ batchCalls (Run specDeps calmWorld ⟨"", ⟨none, ""⟩, none, -1⟩).log = [] := by
  decide

/-- C10 as stated fails at `juju add-machine` with no placement: the request
`Run` passes to `AddMachines` has a nil Placement, an empty ContainerType and an
empty ParentId, so neither side is populated. -/
theorem run_wire_exclusive_fails :
    ¬ (∀ ms ∈ batchCalls (Run specDeps calmWorld ⟨"", ⟨none, ""⟩, none, 1⟩).log,
        ∀ r ∈ ms, WireExclusive r) := by
  intro h
  have hr := h [⟨"", ⟨none, ""⟩, [MachineJob.JobHostUnits, MachineJob.JobManageNetworking],
    none, "", ""⟩] (by decide) _ (List.mem_singleton.mpr rfl)
  rcases hr with ⟨hp, _⟩ | ⟨_, hc | hc⟩
  · exact hp rfl
  · exact hc rfl
  · exact hc rfl

/-- C10, amended. Placement and the pair (ContainerType, ParentId) are never
both populated on a request `Run` passes to the backend: a request passed
through `AddMachines` has an empty ContainerType and an empty ParentId and
carries the placement of the command, "env-uuid" resolved (nil when the command
has none, and then neither side is populated); a request passed through
`AddMachines1dot18` has a nil Placement. -/
theorem run_wire_never_both (D : Deps) (W : World) (c : AddMachineCommand) :
    (∀ ms ∈ batchCalls (Run D W c).log, ∀ r ∈ ms,
        r.ContainerType = "" ∧ r.ParentId = "" ∧ r.Placement = (resolve W c).1.Placement)
      ∧ (∀ ms ∈ legacyCalls (Run D W c).log, ∀ r ∈ ms, r.Placement = none) := by
  constructor
  · intro ms hms r hr
    obtain ⟨config, hreach⟩ := reaches_of_call D W c ms hms
    obtain ⟨_, hrep⟩ := machines_some _ _ _ hreach.built
    rw [hrep] at hr
    rw [List.eq_of_mem_replicate hr]
    exact ⟨rfl, rfl, rfl⟩
  · intro ms hms r hr
    obtain ⟨config, ms2, hreach⟩ := reaches_of_reply D W c (replies_of_legacy _ ms hms)
    rw [(Run_observed D W config c ms2 hreach).2.1] at hms
    rcases submit_cases D W (resolve W c).1 (machineParams D config (resolve W c).1) ms2
      with ⟨_, h⟩ | ⟨_, _, _, _, _, h⟩ | ⟨_, mp1, hmp1, h⟩
    · simp [h, legacyCalls] at hms
    · simp [h, legacyCalls] at hms
    · simp [h, legacyCalls] at hms
      subst hms
      simp at hr
      subst hr
      rcases hmp1 with ⟨hnone, hmp⟩ | ⟨_, _, _, hmp⟩
      · rw [hmp]
        exact hnone
      · rw [hmp]

/-! ## The periodic worker -/

/-- An invocation changes neither the action nor the period of a worker. -/
theorem invoke_frame (w : PeriodicWorker) :
    w.invoke.call = w.call ∧ w.invoke.period = w.period := by
  unfold PeriodicWorker.invoke
  split <;> exact ⟨rfl, rfl⟩

/-- A running worker whose scheduled time has come invokes the action. -/
theorem step_advance_fire (w : PeriodicWorker) (d : Nat) (hp : w.phase = Phase.Running)
    (hd : w.due ≤ w.now + d) :
    w.step (.Advance d) = PeriodicWorker.invoke { w with now := w.now + d } := by
  simp [PeriodicWorker.step, hp, hd]

/-- A running worker whose scheduled time has not come only sees the clock
move. -/
theorem step_advance_wait (w : PeriodicWorker) (d : Nat) (hp : w.phase = Phase.Running)
    (hd : ¬ w.due ≤ w.now + d) :
    w.step (.Advance d) = { w with now := w.now + d } := by
  simp [PeriodicWorker.step, hp, hd]

/-- A worker that is not running only sees the clock move. -/
theorem step_advance_idle (w : PeriodicWorker) (d : Nat) (hp : w.phase ≠ Phase.Running) :
    w.step (.Advance d) = { w with now := w.now + d } := by
  unfold PeriodicWorker.step
  rcases hq : w.phase with _ | _ | _ | err
  · simp
  · exact absurd hq hp
  · simp
  · simp

/-- A request to stop changes nothing on a faulted worker. -/
theorem step_stop_faulted (w : PeriodicWorker) (err : GoError)
    (hp : w.phase = Phase.Faulted err) : w.step .Stop = w := by
  simp [PeriodicWorker.step, hp]

/-- A request to stop ends a worker that has not faulted. -/
theorem step_stop_other (w : PeriodicWorker) (hp : ∀ err, w.phase ≠ Phase.Faulted err) :
    w.step .Stop = { w with phase := Phase.Stopped } := by
  unfold PeriodicWorker.step
  rcases hq : w.phase with _ | _ | _ | err
  · simp
  · simp
  · simp
  · exact absurd hq (hp err)

/-- An event changes neither the action nor the period of a worker. -/
theorem step_frame (w : PeriodicWorker) (ev : WorkerEvent) :
    (w.step ev).call = w.call ∧ (w.step ev).period = w.period := by
  cases ev with
  | Advance d =>
    by_cases hp : w.phase = Phase.Running
    · by_cases hd : w.due ≤ w.now + d
      · rw [step_advance_fire w d hp hd]
        exact invoke_frame _
      · rw [step_advance_wait w d hp hd]
        exact ⟨rfl, rfl⟩
    · rw [step_advance_idle w d hp]
      exact ⟨rfl, rfl⟩
  | Stop =>
    by_cases hp : ∃ err, w.phase = Phase.Faulted err
    · obtain ⟨err, herr⟩ := hp
      rw [step_stop_faulted w err herr]
      exact ⟨rfl, rfl⟩
    · rw [step_stop_other w (fun err h => hp ⟨err, h⟩)]
      exact ⟨rfl, rfl⟩

/-- The invariant holds when the worker has just been started. -/
theorem latch_start (call : Nat → Option GoError) (period n : Nat) (e : GoError)
    (hn : 1 ≤ n) (hquiet : ∀ k, 1 ≤ k → k < n → call k = none) (hfails : call n = some e) :
    Latch n e (NewPeriodicWorker call period) := by
  have hcall : (NewPeriodicWorker call period).call = call := (invoke_frame _).1
  by_cases h1 : n = 1
  · subst h1
    have hc : call (0 + 1) = some e := hfails
    refine ⟨by rw [hcall]; exact hquiet, by rw [hcall]; exact hfails,
      ?_, ?_, ?_, ?_, ?_, ?_, ?_, ?_⟩ <;>
      simp [NewPeriodicWorker, PeriodicWorker.invoke, hc]
  · have hc : call (0 + 1) = none := hquiet 1 (le_refl 1) (by omega)
    refine ⟨by rw [hcall]; exact hquiet, by rw [hcall]; exact hfails,
      ?_, ?_, ?_, ?_, ?_, ?_, ?_, ?_⟩ <;>
      simp [NewPeriodicWorker, PeriodicWorker.invoke, hc]
    · exact hn
    · intro h
      exact h1 h.symm

/-- A running worker under the invariant has not used up its `n` invocations. -/
theorem latch_running_lt (n : Nat) (e : GoError) (w : PeriodicWorker) (h : Latch n e w)
    (hp : w.phase = Phase.Running) : w.calls.length < n := by
  by_contra hge
  have hn : w.calls.length = n := le_antisymm h.bounded (not_lt.mp hge)
  rw [h.latched hn] at hp
  cases hp

/-- The invariant survives an invocation made when the scheduled time has
come. -/
theorem latch_fire (n : Nat) (e : GoError) (w : PeriodicWorker) (d : Nat)
    (h : Latch n e w) (hp : w.phase = Phase.Running) (hd : w.due ≤ w.now + d) :
    Latch n e (PeriodicWorker.invoke { w with now := w.now + d }) := by
  have hlt := latch_running_lt n e w h hp
  obtain ⟨hquiet, hfails, hstarted, _, _, _, _, hrecent, hspaced, hfirst⟩ := h
  obtain ⟨t, rest, hcs⟩ : ∃ t rest, w.calls = t :: rest := by
    rcases hc : w.calls with _ | ⟨t, rest⟩
    · rw [hc] at hstarted
      simp at hstarted
    · exact ⟨t, rest, rfl⟩
  obtain ⟨_, hdue⟩ := hrecent t (by rw [hcs]; rfl)
  have hdue2 := hdue hp
  have hgap : t + w.period ≤ w.now + d := by omega
  have hchain : List.Chain' (fun later earlier => earlier + w.period ≤ later)
      ((w.now + d) :: w.calls) := by
    rw [hcs] at hspaced ⊢
    exact List.Chain'.cons hgap hspaced
  have hlast : ((w.now + d) :: w.calls).getLast? = some 0 := by
    rw [hcs] at hfirst ⊢
    simpa using hfirst
  by_cases hk : w.calls.length + 1 = n
  · have hc : w.call (w.calls.length + 1) = some e := by rw [hk]; exact hfails
    have hinv : PeriodicWorker.invoke { w with now := w.now + d }
        = { w with now := w.now + d, phase := Phase.Faulted e,
                   calls := (w.now + d) :: w.calls } := by
      unfold PeriodicWorker.invoke
      dsimp only
      rw [hc]
    rw [hinv]
    refine ⟨hquiet, hfails, ?_, ?_, ?_, ?_, ?_, ?_, hchain, hlast⟩
    · simp
    · simp only [List.length_cons]
      omega
    · intro _
      rfl
    · intro hl
      simp only [List.length_cons] at hl
      omega
    · intro hr
      cases hr
    · intro t2 ht2
      simp at ht2
      subst ht2
      exact ⟨le_refl _, fun hr => by cases hr⟩
  · have hk2 : w.calls.length + 1 < n := by omega
    have hc : w.call (w.calls.length + 1) = none := hquiet _ (by omega) hk2
    have hinv : PeriodicWorker.invoke { w with now := w.now + d }
        = { w with now := w.now + d, phase := Phase.Running,
                   due := w.now + d + w.period, calls := (w.now + d) :: w.calls } := by
      unfold PeriodicWorker.invoke
      dsimp only
      rw [hc]
    rw [hinv]
    refine ⟨hquiet, hfails, ?_, ?_, ?_, ?_, ?_, ?_, hchain, hlast⟩
    · simp
    · simp only [List.length_cons]
      omega
    · intro hl
      simp only [List.length_cons] at hl
      omega
    · intro _
      exact Or.inl rfl
    · intro _
      exact le_refl _
    · intro t2 ht2
      simp at ht2
      subst ht2
      exact ⟨le_refl _, fun _ => rfl⟩

/-- The invariant survives every event. -/
theorem latch_step (n : Nat) (e : GoError) (w : PeriodicWorker) (ev : WorkerEvent)
    (h : Latch n e w) : Latch n e (w.step ev) := by
  cases ev with
  | Advance d =>
    by_cases hp : w.phase = Phase.Running
    · by_cases hd : w.due ≤ w.now + d
      · rw [step_advance_fire w d hp hd]
        exact latch_fire n e w d h hp hd
      · rw [step_advance_wait w d hp hd]
        refine ⟨h.quiet, h.fails, h.started, h.bounded, h.latched, h.alive, ?_, ?_,
          h.spaced, h.first⟩
        · intro _
          have := h.scheduled hp
          show w.due ≤ w.now + d + w.period
          omega
        · intro t ht
          obtain ⟨h1, h2⟩ := h.recent t ht
          exact ⟨by show t ≤ w.now + d; omega, h2⟩
    · rw [step_advance_idle w d hp]
      refine ⟨h.quiet, h.fails, h.started, h.bounded, h.latched, h.alive, ?_, ?_,
        h.spaced, h.first⟩
      · intro hr
        exact absurd hr hp
      · intro t ht
        obtain ⟨h1, h2⟩ := h.recent t ht
        exact ⟨by show t ≤ w.now + d; omega, h2⟩
  | Stop =>
    by_cases hp : ∃ err, w.phase = Phase.Faulted err
    · obtain ⟨err, herr⟩ := hp
      rw [step_stop_faulted w err herr]
      exact h
    · have hnf : ∀ err, w.phase ≠ Phase.Faulted err := fun err hq => hp ⟨err, hq⟩
      rw [step_stop_other w hnf]
      refine ⟨h.quiet, h.fails, h.started, h.bounded, ?_, ?_, ?_, ?_, h.spaced, h.first⟩
      · intro hl
        exact absurd (h.latched hl) (hnf e)
      · intro _
        exact Or.inr rfl
      · intro hr
        cases hr
      · intro t ht
        obtain ⟨h1, _⟩ := h.recent t ht
        exact ⟨h1, fun hr => by cases hr⟩

/-- The invariant holds after every course of events. -/
theorem latch_run (n : Nat) (e : GoError) (evs : List WorkerEvent) :
    ∀ w : PeriodicWorker, Latch n e w → Latch n e (w.run evs) := by
  induction evs with
  | nil => intro w h; exact h
  | cons ev rest ih =>
    intro w h
    exact ih (w.step ev) (latch_step n e w ev h)

/-- A course of events changes neither the action nor the period of a worker. -/
theorem run_frame (evs : List WorkerEvent) :
    ∀ w : PeriodicWorker, (w.run evs).call = w.call ∧ (w.run evs).period = w.period := by
  induction evs with
  | nil => intro w; exact ⟨rfl, rfl⟩
  | cons ev rest ih =>
    intro w
    obtain ⟨h1, h2⟩ := ih (w.step ev)
    obtain ⟨h3, h4⟩ := step_frame w ev
    exact ⟨h1.trans h3, h2.trans h4⟩

/-- Running a course of events in two parts. -/
theorem run_append (w : PeriodicWorker) (evs more : List WorkerEvent) :
    w.run (evs ++ more) = (w.run evs).run more := by
  simp [PeriodicWorker.run, List.foldl_append]

/-- An invocation records the clock reading and never leaves the worker
stopped. -/
theorem invoke_calls (w : PeriodicWorker) :
    w.invoke.calls = w.now :: w.calls ∧ w.invoke.phase ≠ Phase.Stopped := by
  unfold PeriodicWorker.invoke
  split
  · exact ⟨rfl, fun h => by cases h⟩
  · exact ⟨rfl, fun h => by cases h⟩

/-- The latch: no event makes a faulted worker invoke its action or forget its
error. -/
theorem faulted_run (err : GoError) (evs : List WorkerEvent) :
    ∀ w : PeriodicWorker, w.phase = Phase.Faulted err →
      (w.run evs).phase = Phase.Faulted err ∧ (w.run evs).calls = w.calls := by
  induction evs with
  | nil => intro w h; exact ⟨h, rfl⟩
  | cons ev rest ih =>
    intro w h
    have hstep : (w.step ev).phase = Phase.Faulted err ∧ (w.step ev).calls = w.calls := by
      cases ev with
      | Advance d =>
        rw [step_advance_idle w d (by rw [h]; intro hr; cases hr)]
        exact ⟨h, rfl⟩
      | Stop =>
        rw [step_stop_faulted w err h]
        exact ⟨h, rfl⟩
    obtain ⟨h1, h2⟩ := ih (w.step ev) hstep.1
    exact ⟨h1, h2.trans hstep.2⟩

/-- Progress: while the clock only advances, every advance of at least a period
lets a worker that still runs invoke its action, so enough of them use up the
`n` invocations. -/
theorem latch_progress (n : Nat) (e : GoError) (period : Nat) (ds : List Nat) :
    ∀ w : PeriodicWorker, Latch n e w → w.period = period → w.phase ≠ Phase.Stopped →
      n ≤ w.calls.length + (ds.filter (fun d => decide (period ≤ d))).length →
      (w.run (ds.map WorkerEvent.Advance)).calls.length = n := by
  induction ds with
  | nil =>
    intro w h _ _ hle
    simp only [List.filter_nil, List.length_nil, Nat.add_zero] at hle
    exact le_antisymm h.bounded hle
  | cons d rest ih =>
    intro w h hper hns hle
    have hlatch := latch_step n e w (.Advance d) h
    have hper2 : (w.step (.Advance d)).period = period := (step_frame w _).2.trans hper
    show ((w.step (.Advance d)).run (rest.map WorkerEvent.Advance)).calls.length = n
    by_cases hp : w.phase = Phase.Running
    · have hsched := h.scheduled hp
      by_cases hd : w.due ≤ w.now + d
      · have hfire := step_advance_fire w d hp hd
        obtain ⟨hc, hph⟩ := invoke_calls { w with now := w.now + d }
        apply ih _ hlatch hper2
        · rw [hfire]
          exact hph
        · rw [hfire, hc]
          simp only [List.length_cons]
          by_cases hbig : period ≤ d
          · simp only [List.filter_cons, hbig, decide_True, if_true, List.length_cons] at hle
            omega
          · simp only [List.filter_cons, hbig, decide_False] at hle
            simp at hle
            omega
      · have hwait := step_advance_wait w d hp hd
        have hbig : ¬ period ≤ d := by
          intro hbig
          apply hd
          omega
        apply ih _ hlatch hper2
        · rw [hwait]
          exact hns
        · rw [hwait]
          simp only [List.filter_cons, hbig, decide_False] at hle
          simp at hle
          exact hle
    · have hidle := step_advance_idle w d hp
      have hfull : w.calls.length = n := by
        by_contra hne
        have hlt : w.calls.length < n := lt_of_le_of_ne h.bounded hne
        rcases h.alive hlt with hr | hs
        · exact hp hr
        · exact hns hs
      apply ih _ hlatch hper2
      · rw [hidle]
        exact hns
      · rw [hidle]
        show n ≤ w.calls.length + _
        omega

/-- C11. Fault latch of the periodic worker: let the action return nil on its
invocations 1 to n-1 and the error `e` on its `n`-th (n >= 1), and let the
period be positive.  (1) Whatever the course of events, the worker started with
that action has invoked it at least once and at most `n` times; the first
invocation was made on start, at clock reading 0, and every later one at least
a full period after the one before.  (2) While the clock only advances, as soon
as n-1 of the advances are of a full period or more the action has been invoked
exactly `n` times and `Wait` returns `e`.  (3) Once the action has been invoked
`n` times, no further event, however far the clock is advanced, adds an
invocation, and `Wait` returns `e`. -/
theorem periodic_fault_latch (call : Nat → Option GoError) (period n : Nat) (e : GoError)
    (hperiod : 0 < period) (hn : 1 ≤ n)
    (hquiet : ∀ k, 1 ≤ k → k < n → call k = none) (hfails : call n = some e) :
    (∀ evs : List WorkerEvent,
        1 ≤ ((NewPeriodicWorker call period).run evs).calls.length
        ∧ ((NewPeriodicWorker call period).run evs).calls.length ≤ n
        ∧ ((NewPeriodicWorker call period).run evs).calls.getLast? = some 0
        ∧ List.Chain' (fun later earlier => earlier + period ≤ later ∧ earlier < later)
            ((NewPeriodicWorker call period).run evs).calls)
      ∧ (∀ ds : List Nat, n ≤ 1 + (ds.filter (fun d => decide (period ≤ d))).length →
          ((NewPeriodicWorker call period).run (ds.map WorkerEvent.Advance)).calls.length = n
          ∧ ((NewPeriodicWorker call period).run (ds.map WorkerEvent.Advance)).Wait
            = some (some e))
      ∧ (∀ evs : List WorkerEvent,
          ((NewPeriodicWorker call period).run evs).calls.length = n →
          ∀ more : List WorkerEvent,
            ((NewPeriodicWorker call period).run (evs ++ more)).Wait = some (some e)
            ∧ ((NewPeriodicWorker call period).run (evs ++ more)).calls
              = ((NewPeriodicWorker call period).run evs).calls) := by
  have hstart := latch_start call period n e hn hquiet hfails
  have hper0 : (NewPeriodicWorker call period).period = period := (invoke_frame _).2
  have hlen0 : (NewPeriodicWorker call period).calls.length = 1 := by
    rw [NewPeriodicWorker, (invoke_calls _).1]
    rfl
  have hwait : ∀ w : PeriodicWorker, Latch n e w → w.calls.length = n →
      w.Wait = some (some e) := by
    intro w hw hl
    simp [PeriodicWorker.Wait, hw.latched hl]
  refine ⟨?_, ?_, ?_⟩
  · intro evs
    have hl := latch_run n e evs _ hstart
    have hper : ((NewPeriodicWorker call period).run evs).period = period :=
      (run_frame evs _).2.trans hper0
    refine ⟨hl.started, hl.bounded, hl.first, ?_⟩
    have hsp := hl.spaced
    rw [hper] at hsp
    exact hsp.imp (fun later earlier hab => ⟨hab, by omega⟩)
  · intro ds hds
    have hl := latch_run n e (ds.map WorkerEvent.Advance) _ hstart
    have hcount := latch_progress n e period ds _ hstart hper0
      (invoke_calls _).2 (by rw [hlen0]; exact hds)
    exact ⟨hcount, hwait _ hl hcount⟩
  · intro evs hfull more
    have hl := latch_run n e evs _ hstart
    obtain ⟨h1, h2⟩ := faulted_run e more _ (hl.latched hfull)
    rw [run_append]
    refine ⟨?_, h2⟩
    simp [PeriodicWorker.Wait, h1]

/-- Instance of C11: the worker of `toolsversionchecker.New` with an interval of
one minute and a facade whose second call fails.  After one minute the check
has run twice, at 0 and at one minute, and `Wait` returns the annotated error;
five more minutes and a request to stop change nothing. -/
theorem periodic_fault_latch_witness :
    ((New sampleAnnotate failsSecond ⟨60000000000⟩).run
        [WorkerEvent.Advance 60000000000]).calls.length = 2
      ∧ ((New sampleAnnotate failsSecond ⟨60000000000⟩).run
        [WorkerEvent.Advance 60000000000]).Wait
        = some (some (sampleAnnotate (GoError.new "no more updates for you")
            "cannot update tools information"))
      ∧ ((New sampleAnnotate failsSecond ⟨60000000000⟩).run
        ([WorkerEvent.Advance 60000000000]
          ++ [WorkerEvent.Advance 300000000000, WorkerEvent.Stop])).calls
        = ((New sampleAnnotate failsSecond ⟨60000000000⟩).run
            [WorkerEvent.Advance 60000000000]).calls :=
  have h := periodic_fault_latch (fun k => doCheck sampleAnnotate (failsSecond k))
    60000000000 2
    (sampleAnnotate (GoError.new "no more updates for you") "cannot update tools information")
    (by decide) (by decide)
    (fun k h1 h2 => by
      have hk : k = 1 := by omega
      subst hk
      rfl)
    rfl
  have hB := h.2.1 [60000000000] (by decide)
  ⟨hB.1, hB.2, (h.2.2 [WorkerEvent.Advance 60000000000] hB.1
    [WorkerEvent.Advance 300000000000, WorkerEvent.Stop]).2⟩

end Juju
